import Mathlib

/-!
Verification of the core data-transformation logic of the openingCandle
repository (`backend.py`, `api/index.py`): timeframe resampling/aggregation
(`process_timeframe`), synthetic 30-second sub-bar interpolation
(`create_30second_data`), and the first-candle win-rate evaluator
(`calculate_first_candle_winrate`).

Modelling conventions:
* Prices are real-valued in the source (Python floats); they are embedded as
  exact rationals `ℚ`, the standard idealisation of real price arithmetic.
* Timestamps are rational numbers of seconds since midnight (exchange-local)
  of the series' trading day.  `pandas` timestamps are zone-aware points in
  time; within the single trading day every series is scoped to, seconds
  since midnight determine them completely.  The ISO-8601 stringification
  performed by `api/index.py` is presentational and not modelled.
* Volume is a non-negative integer (`ℕ`); Python's `v // 2` on a non-negative
  integer is `ℕ` division.
* `pandas` `resample('{m}min')` with the default `origin='start_day'` groups a
  sorted datetime index into bins `[k·W, (k+1)·W)` measured from midnight of
  the first day, emits one row per bin in ascending bin order with the
  aggregation dict `{open: first, high: max, low: min, close: last,
  volume: sum}`, and `.dropna()` removes the all-NaN rows of empty bins.
  This is embedded via floor-division bucketing on the timestamp, a sorted
  list of the distinct occupied bucket keys, and a fold computing
  first/max/min/last/sum over each bucket's rows in arrival order.
* The win-rate evaluator's per-day network fetch (`yf.download`) is an
  external collaborator; it is embedded as a function from the day to an
  `Option (List Bar)`, where `none` stands for a day whose fetch raised (the
  `except` branch) and `some []` for an empty fetch result.
-/

/-- One OHLCV record for a fixed time interval.  The field `open_` renders the
source's `open` column (`open` is a Lean keyword). -/
structure Bar where
  timestamp : ℚ
  open_ : ℚ
  high : ℚ
  low : ℚ
  close : ℚ
  volume : ℕ
deriving DecidableEq, Repr

/-- The two synthetic 30-second candles built from one 1-minute bar
(`backend.py` lines 148-179): `mid = (o + h + l + c) / 4`; first candle keeps
the timestamp and open, closes at `mid`; second candle starts 30 seconds
later, opens at `mid` and keeps the close; both use `max(h, mid)` /
`min(l, mid)` and half the volume by integer division. -/
def synthPair (b : Bar) : List Bar :=
  let mid : ℚ := (b.open_ + b.high + b.low + b.close) / 4
  [{ timestamp := b.timestamp
     open_ := b.open_
     high := max b.high mid
     low := min b.low mid
     close := mid
     volume := b.volume / 2 },
   { timestamp := b.timestamp + 30
     open_ := mid
     high := max b.high mid
     low := min b.low mid
     close := b.close
     volume := b.volume / 2 }]

/-- `create_30second_data(df)`: returns `[]` on an empty frame, otherwise the
two synthetic candles of every row, appended in row order. -/
def create_30second_data (df : List Bar) : List Bar :=
  match df with
  | [] => []
  | _ :: _ => df.flatMap synthPair

/-- The resample bin (bucket key) of a timestamp for bin width `W` seconds:
bins are `[k·W, (k+1)·W)` from midnight (`origin='start_day'`). -/
def bucketOf (W : ℚ) (t : ℚ) : ℤ := ⌊t / W⌋

/-- The aggregation dict of the resample call, applied to one non-empty
bucket `hd :: tl` (arrival order): `open` = first, `high` = max, `low` = min,
`close` = last, `volume` = sum; the emitted row is indexed by the bin edge
`k·W`. -/
def aggBucket (W : ℚ) (k : ℤ) (hd : Bar) (tl : List Bar) : Bar :=
  tl.foldl
    (fun acc x =>
      { acc with
        high := max acc.high x.high
        low := min acc.low x.low
        close := x.close
        volume := acc.volume + x.volume })
    { timestamp := (k : ℚ) * W
      open_ := hd.open_
      high := hd.high
      low := hd.low
      close := hd.close
      volume := hd.volume }

/-- The ascending list of the distinct bins occupied by at least one row. -/
def occupiedBins (W : ℚ) (df : List Bar) : List ℤ :=
  ((df.map (fun b => bucketOf W b.timestamp)).dedup).insertionSort (· ≤ ·)

/-- `df.resample(f'{minutes}min').agg({open: first, high: max, low: min,
close: last, volume: sum}).dropna()` for bin width `W` seconds: one row per
occupied bin, in ascending bin order.  The `[]` arm is unreachable (every
listed key has at least one row). -/
def resampleAgg (W : ℚ) (df : List Bar) : List Bar :=
  (occupiedBins W df).map
    (fun k =>
      match df.filter (fun b => bucketOf W b.timestamp = k) with
      | [] => { timestamp := (k : ℚ) * W, open_ := 0, high := 0, low := 0,
                close := 0, volume := 0 }
      | hd :: tl => aggBucket W k hd tl)

/-- `process_timeframe(df, minutes)` (`backend.py` lines 117-139): dispatch to
the synthesizer for `minutes == 0.5`, return the frame unchanged for
`minutes == 1`, otherwise resample to `minutes`-minute bins.  No validation of
`minutes` is performed anywhere in the source. -/
def process_timeframe (df : List Bar) (minutes : ℚ) : List Bar :=
  if minutes = 1/2 then create_30second_data df
  else if minutes = 1 then df
  else resampleAgg (60 * minutes) df

/-- The three parallel outputs assembled by the data route
(`process_timeframe(df, 0.5)`, `(df, 5)`, `(df, 15)`). -/
def build_timeframes (df : List Bar) : List Bar × List Bar × List Bar :=
  (process_timeframe df (1/2), process_timeframe df 5, process_timeframe df 15)

/-- Round-half-to-even on a rational, Python's rounding mode for `round`. -/
def roundHalfEven (x : ℚ) : ℤ :=
  if x - ⌊x⌋ < 1/2 then ⌊x⌋
  else if 1/2 < x - ⌊x⌋ then ⌊x⌋ + 1
  else if Even ⌊x⌋ then ⌊x⌋ else ⌊x⌋ + 1

/-- Python's `round(x, ndigits)` on the rational idealisation. -/
def pyRound (ndigits : ℕ) (x : ℚ) : ℚ :=
  (roundHalfEven (x * 10 ^ ndigits) : ℚ) / 10 ^ ndigits

/-- The reference bar's directional bias: `'up' if close >= open else 'down'`. -/
inductive Direction where
  | up : Direction
  | down : Direction
deriving DecidableEq, Repr

/-- One step of the win/loss tally (`api/index.py` lines 207-218): a high
above the reference high is classified first (win iff direction is up);
otherwise a low below the reference low is classified (win iff direction is
down); otherwise the bar contributes nothing. -/
def tallyStep (fc : Bar) (dir : Direction) (wl : ℕ × ℕ) (c : Bar) : ℕ × ℕ :=
  if fc.high < c.high then
    if dir = Direction.up then (wl.1 + 1, wl.2) else (wl.1, wl.2 + 1)
  else if c.low < fc.low then
    if dir = Direction.down then (wl.1 + 1, wl.2) else (wl.1, wl.2 + 1)
  else wl

/-- One record of `winrate_data` (`api/index.py` lines 223-237); the nested
`first_candle` dict is flattened into the `fc…` fields. -/
structure DayRecord where
  date : ℤ
  fcOpen : ℚ
  fcHigh : ℚ
  fcLow : ℚ
  fcClose : ℚ
  fcRange : ℚ
  direction : Direction
  trades : ℕ
  wins : ℕ
  losses : ℕ
  winrate : ℚ
deriving DecidableEq, Repr

/-- The summary returned by `calculate_first_candle_winrate` when at least one
day produced a record (`api/index.py` lines 244-258). -/
structure Summary where
  overall_winrate : ℚ
  winning_days : ℕ
  total_days : ℕ
  total_wins : ℕ
  total_losses : ℕ
  daily_breakdown : List DayRecord
deriving DecidableEq, Repr

/-- The body of one iteration of the day loop (`api/index.py` lines 170-241):
`none` when the day is skipped (`continue`) — fetch raised, fetch empty, or
fewer than two synthesized candles — otherwise the day's record.  `date` is
the day number handed in by the loop. -/
def processDay (date : ℤ) : Option (List Bar) → Option DayRecord
  | none => none
  | some df =>
    if df = [] then none
    else
      match create_30second_data df with
      | [] => none
      | [_] => none
      | fc :: rest =>
        let dir := if fc.open_ ≤ fc.close then Direction.up else Direction.down
        let wl := rest.foldl (tallyStep fc dir) (0, 0)
        let total := wl.1 + wl.2
        let rate : ℚ := if 0 < total then (wl.1 : ℚ) / (total : ℚ) * 100 else 0
        some
          { date := date
            fcOpen := pyRound 2 fc.open_
            fcHigh := pyRound 2 fc.high
            fcLow := pyRound 2 fc.low
            fcClose := pyRound 2 fc.close
            fcRange := pyRound 2 (fc.high - fc.low)
            direction := dir
            trades := total
            wins := wl.1
            losses := wl.2
            winrate := pyRound 1 rate }

/-- `calculate_first_candle_winrate(days)`: evaluate the most recent `days`
days (`today - i` for `i = 0, …, days-1`, most recent first), skipping failed
or insufficient days, then summarise; `none` renders the
`{'error': 'No data available…'}` return when no day produced a record.  The
per-day data source is the explicit collaborator `fetch`. -/
def calculate_first_candle_winrate (today : ℤ) (fetch : ℤ → Option (List Bar))
    (days : ℕ) : Option Summary :=
  let winrate_data := (List.range days).filterMap
    (fun i : ℕ => processDay (today - (i : ℤ)) (fetch (today - (i : ℤ))))
  match winrate_data with
  | [] => none
  | _ :: _ =>
    some
      { overall_winrate :=
          pyRound 1 ((winrate_data.map DayRecord.winrate).sum /
            (winrate_data.length : ℚ))
        winning_days := (winrate_data.filter (fun d => 50 < d.winrate)).length
        total_days := winrate_data.length
        total_wins := (winrate_data.map DayRecord.wins).sum
        total_losses := (winrate_data.map DayRecord.losses).sum
        daily_breakdown := winrate_data }

/-- The OHLC bar invariant: the high bounds open and close from above, the
low bounds them from below. -/
def ohlcInvariant (b : Bar) : Prop :=
  max b.open_ b.close ≤ b.high ∧ b.low ≤ min b.open_ b.close

instance (b : Bar) : Decidable (ohlcInvariant b) := by
  unfold ohlcInvariant; infer_instance

/-! ### Basic facts about the synthesizer -/

lemma create_eq_flatMap (df : List Bar) :
    create_30second_data df = df.flatMap synthPair := by
  cases df <;> rfl

lemma create_length (df : List Bar) :
    (create_30second_data df).length = 2 * df.length := by
  rw [create_eq_flatMap]
  induction df with
  | nil => rfl
  | cons x r ih => simp only [List.flatMap_cons, List.length_append, ih,
      List.length_cons, synthPair, List.length_nil]; ring

lemma flatMap_synthPair_getElem (df : List Bar) (i : ℕ) (b : Bar)
    (hb : df[i]? = some b) :
    (df.flatMap synthPair)[2 * i]? = (synthPair b)[0]? ∧
    (df.flatMap synthPair)[2 * i + 1]? = (synthPair b)[1]? := by
  induction df generalizing i with
  | nil => simp at hb
  | cons x rest ih =>
    cases i with
    | zero =>
      simp only [List.getElem?_cons_zero, Option.some.injEq] at hb
      subst hb
      simp [synthPair]
    | succ j =>
      simp only [List.getElem?_cons_succ] at hb
      have h2 : 2 * (j + 1) = 2 * j + 1 + 1 := by ring
      rw [h2]
      simpa [synthPair] using ih j hb

/-- A concrete bar used to instantiate hypotheses of the proved theorems. -/
def wBar : Bar :=
  { timestamp := 23400, open_ := 100, high := 100, low := 100, close := 100,
    volume := 2 }

/-- C1: `create_30second_data` turns each base bar with timestamp `t`, open
`o`, high `h`, low `l`, close `c`, volume `v` into exactly two bars built
around `mid = (o + h + l + c) / 4`: the first at `t` with open `o`, close
`mid`, the second at `t + 30 s` with open `mid`, close `c`, both with high
`max(h, mid)`, low `min(l, mid)` and volume `⌊v / 2⌋`; a series of `N` bars
yields `2N` bars in input order, and the two half-volumes sum to at most `v`,
with equality exactly when `v` is even. -/
theorem synthesizer_two_bars_c1 (df : List Bar) (i : ℕ) (b : Bar)
    (hb : df[i]? = some b) :
    (create_30second_data df).length = 2 * df.length ∧
    (create_30second_data df)[2 * i]? =
      some { timestamp := b.timestamp
             open_ := b.open_
             high := max b.high ((b.open_ + b.high + b.low + b.close) / 4)
             low := min b.low ((b.open_ + b.high + b.low + b.close) / 4)
             close := (b.open_ + b.high + b.low + b.close) / 4
             volume := b.volume / 2 } ∧
    (create_30second_data df)[2 * i + 1]? =
      some { timestamp := b.timestamp + 30
             open_ := (b.open_ + b.high + b.low + b.close) / 4
             high := max b.high ((b.open_ + b.high + b.low + b.close) / 4)
             low := min b.low ((b.open_ + b.high + b.low + b.close) / 4)
             close := b.close
             volume := b.volume / 2 } ∧
    b.volume / 2 + b.volume / 2 ≤ b.volume ∧
    (b.volume / 2 + b.volume / 2 = b.volume ↔ Even b.volume) := by
  obtain ⟨h0, h1⟩ := flatMap_synthPair_getElem df i b hb
  rw [create_eq_flatMap]
  refine ⟨?_, ?_, ?_, ?_, ?_⟩
  · rw [← create_eq_flatMap]; exact create_length df
  · rw [h0]; rfl
  · rw [h1]; rfl
  · omega
  · rw [Nat.even_iff]; omega

theorem synthesizer_two_bars_c1_witness :
    (create_30second_data [wBar])[0]? =
      some { timestamp := wBar.timestamp
             open_ := wBar.open_
             high := max wBar.high
               ((wBar.open_ + wBar.high + wBar.low + wBar.close) / 4)
             low := min wBar.low
               ((wBar.open_ + wBar.high + wBar.low + wBar.close) / 4)
             close := (wBar.open_ + wBar.high + wBar.low + wBar.close) / 4
             volume := wBar.volume / 2 } := by
  have h := (synthesizer_two_bars_c1 [wBar] 0 wBar rfl).2.1
  simpa using h

/-! ### The win/loss classification step (claim C7) -/

/-- C7: each scanned bar contributes at most one win-or-loss classification;
a high above the reference high is classified first and is a win exactly when
the direction is up (so with direction down it is a loss, and a bar breaking
both sides is settled by the high-break rule alone); only when the high does
not break is a low below the reference low classified, a win exactly when the
direction is down; a bar breaking neither side contributes nothing. -/
theorem tally_precedence_c7 (fc c : Bar) (dir : Direction) (wl : ℕ × ℕ) :
    (tallyStep fc dir wl c).1 + (tallyStep fc dir wl c).2 ≤ wl.1 + wl.2 + 1 ∧
    (fc.high < c.high →
      tallyStep fc dir wl c =
        (if dir = Direction.up then (wl.1 + 1, wl.2) else (wl.1, wl.2 + 1))) ∧
    (¬fc.high < c.high → c.low < fc.low →
      tallyStep fc dir wl c =
        (if dir = Direction.down then (wl.1 + 1, wl.2)
         else (wl.1, wl.2 + 1))) ∧
    (¬fc.high < c.high → ¬c.low < fc.low → tallyStep fc dir wl c = wl) := by
  unfold tallyStep
  refine ⟨?_, ?_, ?_, ?_⟩ <;> split_ifs <;> simp_all <;> omega

/-- The reference bar for the C7 witness (high 100, low 90). -/
def wFc : Bar :=
  { timestamp := 0, open_ := 100, high := 100, low := 90, close := 95,
    volume := 0 }

/-- A bar breaking both the reference high and the reference low. -/
def wBrk : Bar :=
  { timestamp := 30, open_ := 95, high := 101, low := 89, close := 95,
    volume := 0 }

theorem tally_precedence_c7_witness :
    wFc.high < wBrk.high ∧ wBrk.low < wFc.low ∧
    tallyStep wFc Direction.down (0, 0) wBrk = (0, 1) := by
  have hh : wFc.high < wBrk.high := by norm_num [wFc, wBrk]
  refine ⟨hh, by norm_num [wFc, wBrk], ?_⟩
  rw [(tally_precedence_c7 wFc wBrk Direction.down (0, 0)).2.1 hh]
  rfl

/-! ### Dispatcher edge cases (claims C8 and C4) -/

/-- C8: aggregating to the input's own nominal interval
(`process_timeframe(df, 1)`) returns the input series unchanged — same bars,
same order, nothing dropped or modified; the `minutes == 1` arm returns the
frame directly and the bucketing arm is never reached. -/
theorem aggregate_identity_c8 (df : List Bar) : process_timeframe df 1 = df := by
  unfold process_timeframe
  norm_num

/-- C4: on an empty base series the dispatcher yields empty sequences for all
three outputs (30 s, 5 m, 15 m); both the synthesizer and the aggregator are
total on empty input and return `[]` rather than failing. -/
theorem empty_series_c4 : build_timeframes [] = ([], [], []) := by
  unfold build_timeframes process_timeframe
  norm_num [create_30second_data, resampleAgg, occupiedBins, List.insertionSort]

/-! ### Facts about the bucket aggregation fold -/

lemma aggFold_timestamp (tl : List Bar) (acc : Bar) :
    (tl.foldl
      (fun acc x =>
        { acc with
          high := max acc.high x.high
          low := min acc.low x.low
          close := x.close
          volume := acc.volume + x.volume }) acc).timestamp = acc.timestamp := by
  induction tl generalizing acc with
  | nil => rfl
  | cons y ys ih => simpa using ih _

lemma aggFold_open (tl : List Bar) (acc : Bar) :
    (tl.foldl
      (fun acc x =>
        { acc with
          high := max acc.high x.high
          low := min acc.low x.low
          close := x.close
          volume := acc.volume + x.volume }) acc).open_ = acc.open_ := by
  induction tl generalizing acc with
  | nil => rfl
  | cons y ys ih => simpa using ih _

lemma getLastD_of_ne_nil {α : Type} {l : List α} (h : l ≠ []) (a b : α) :
    l.getLastD a = l.getLastD b := by
  cases l with
  | nil => exact absurd rfl h
  | cons x xs => rw [List.getLastD_cons, List.getLastD_cons]

lemma aggFold_close (tl : List Bar) (acc : Bar) :
    (tl.foldl
      (fun acc x =>
        { acc with
          high := max acc.high x.high
          low := min acc.low x.low
          close := x.close
          volume := acc.volume + x.volume }) acc).close = (tl.getLastD acc).close := by
  induction tl generalizing acc with
  | nil => rfl
  | cons y ys ih =>
    rw [List.foldl_cons, ih, List.getLastD_cons]
    cases hys : ys with
    | nil => rfl
    | cons z zs => rw [getLastD_of_ne_nil (List.cons_ne_nil z zs)]

lemma aggFold_high (tl : List Bar) (acc : Bar) :
    (tl.foldl
      (fun acc x =>
        { acc with
          high := max acc.high x.high
          low := min acc.low x.low
          close := x.close
          volume := acc.volume + x.volume }) acc).high =
      tl.foldl (fun r x => max r x.high) acc.high := by
  induction tl generalizing acc with
  | nil => rfl
  | cons y ys ih => simpa using ih _

lemma aggFold_low (tl : List Bar) (acc : Bar) :
    (tl.foldl
      (fun acc x =>
        { acc with
          high := max acc.high x.high
          low := min acc.low x.low
          close := x.close
          volume := acc.volume + x.volume }) acc).low =
      tl.foldl (fun r x => min r x.low) acc.low := by
  induction tl generalizing acc with
  | nil => rfl
  | cons y ys ih => simpa using ih _

lemma aggFold_volume (tl : List Bar) (acc : Bar) :
    (tl.foldl
      (fun acc x =>
        { acc with
          high := max acc.high x.high
          low := min acc.low x.low
          close := x.close
          volume := acc.volume + x.volume }) acc).volume =
      acc.volume + (tl.map Bar.volume).sum := by
  induction tl generalizing acc with
  | nil => simp
  | cons y ys ih => simp [ih]; ring

lemma le_foldl_max (f : Bar → ℚ) (tl : List Bar) (a : ℚ) :
    a ≤ tl.foldl (fun r x => max r (f x)) a := by
  induction tl generalizing a with
  | nil => exact le_refl a
  | cons y ys ih => exact le_trans (le_max_left a (f y)) (ih _)

lemma foldl_max_of_mem (f : Bar → ℚ) (tl : List Bar) (a : ℚ) :
    ∀ x ∈ tl, f x ≤ tl.foldl (fun r x => max r (f x)) a := by
  induction tl generalizing a with
  | nil => simp
  | cons y ys ih =>
    intro x hx
    rcases List.mem_cons.mp hx with h | h
    · subst h
      exact le_trans (le_max_right a (f x)) (le_foldl_max f ys _)
    · exact ih _ x h

lemma foldl_max_mem (f : Bar → ℚ) (tl : List Bar) (a : ℚ) :
    tl.foldl (fun r x => max r (f x)) a ∈ a :: tl.map f := by
  induction tl generalizing a with
  | nil => simp
  | cons y ys ih =>
    rcases List.mem_cons.mp (ih (max a (f y))) with h | h
    · rcases max_choice a (f y) with hm | hm <;> rw [List.foldl_cons, h, hm] <;> simp
    · simp only [List.foldl_cons]
      exact List.mem_cons_of_mem _ (List.mem_cons_of_mem _ h)

lemma foldl_min_le (f : Bar → ℚ) (tl : List Bar) (a : ℚ) :
    tl.foldl (fun r x => min r (f x)) a ≤ a := by
  induction tl generalizing a with
  | nil => exact le_refl a
  | cons y ys ih => exact le_trans (ih _) (min_le_left a (f y))

lemma foldl_min_of_mem (f : Bar → ℚ) (tl : List Bar) (a : ℚ) :
    ∀ x ∈ tl, tl.foldl (fun r x => min r (f x)) a ≤ f x := by
  induction tl generalizing a with
  | nil => simp
  | cons y ys ih =>
    intro x hx
    rcases List.mem_cons.mp hx with h | h
    · subst h
      exact le_trans (foldl_min_le f ys _) (min_le_right a (f x))
    · exact ih _ x h

lemma foldl_min_mem (f : Bar → ℚ) (tl : List Bar) (a : ℚ) :
    tl.foldl (fun r x => min r (f x)) a ∈ a :: tl.map f := by
  induction tl generalizing a with
  | nil => simp
  | cons y ys ih =>
    rcases List.mem_cons.mp (ih (min a (f y))) with h | h
    · rcases min_choice a (f y) with hm | hm <;> rw [List.foldl_cons, h, hm] <;> simp
    · simp only [List.foldl_cons]
      exact List.mem_cons_of_mem _ (List.mem_cons_of_mem _ h)

/-! ### Characterisation of one aggregated bucket -/

lemma aggBucket_timestamp (W : ℚ) (k : ℤ) (hd : Bar) (tl : List Bar) :
    (aggBucket W k hd tl).timestamp = (k : ℚ) * W := by
  unfold aggBucket
  rw [aggFold_timestamp]

lemma aggBucket_open (W : ℚ) (k : ℤ) (hd : Bar) (tl : List Bar) :
    (aggBucket W k hd tl).open_ = hd.open_ := by
  unfold aggBucket
  rw [aggFold_open]

lemma aggBucket_close (W : ℚ) (k : ℤ) (hd : Bar) (tl : List Bar) :
    (aggBucket W k hd tl).close = (tl.getLastD hd).close := by
  unfold aggBucket
  rw [aggFold_close]
  cases hys : tl with
  | nil => rfl
  | cons z zs => rw [getLastD_of_ne_nil (List.cons_ne_nil z zs)]

lemma aggBucket_high_ub (W : ℚ) (k : ℤ) (hd : Bar) (tl : List Bar) :
    ∀ x ∈ hd :: tl, x.high ≤ (aggBucket W k hd tl).high := by
  unfold aggBucket
  rw [aggFold_high]
  intro x hx
  rcases List.mem_cons.mp hx with h | h
  · subst h; exact le_foldl_max Bar.high tl _
  · exact foldl_max_of_mem Bar.high tl _ x h

lemma aggBucket_high_mem (W : ℚ) (k : ℤ) (hd : Bar) (tl : List Bar) :
    (aggBucket W k hd tl).high ∈ (hd :: tl).map Bar.high := by
  unfold aggBucket
  rw [aggFold_high]
  simpa using foldl_max_mem Bar.high tl hd.high

lemma aggBucket_low_lb (W : ℚ) (k : ℤ) (hd : Bar) (tl : List Bar) :
    ∀ x ∈ hd :: tl, (aggBucket W k hd tl).low ≤ x.low := by
  unfold aggBucket
  rw [aggFold_low]
  intro x hx
  rcases List.mem_cons.mp hx with h | h
  · subst h; exact foldl_min_le Bar.low tl _
  · exact foldl_min_of_mem Bar.low tl _ x h

lemma aggBucket_low_mem (W : ℚ) (k : ℤ) (hd : Bar) (tl : List Bar) :
    (aggBucket W k hd tl).low ∈ (hd :: tl).map Bar.low := by
  unfold aggBucket
  rw [aggFold_low]
  simpa using foldl_min_mem Bar.low tl hd.low

lemma aggBucket_volume (W : ℚ) (k : ℤ) (hd : Bar) (tl : List Bar) :
    (aggBucket W k hd tl).volume = ((hd :: tl).map Bar.volume).sum := by
  unfold aggBucket
  rw [aggFold_volume]
  simp

/-! ### The list of occupied bins and the resampled output -/

lemma mem_occupiedBins {W : ℚ} {df : List Bar} {k : ℤ} :
    k ∈ occupiedBins W df ↔ ∃ b ∈ df, bucketOf W b.timestamp = k := by
  unfold occupiedBins
  rw [(List.perm_insertionSort _ _).mem_iff, List.mem_dedup, List.mem_map]

lemma occupiedBins_sorted_lt (W : ℚ) (df : List Bar) :
    (occupiedBins W df).Sorted (· < ·) := by
  unfold occupiedBins
  exact (List.sorted_insertionSort _ _).lt_of_le
    ((List.perm_insertionSort _ _).symm.nodup (List.nodup_dedup _))

lemma filter_bucket_ne_nil {W : ℚ} {df : List Bar} {k : ℤ}
    (hk : k ∈ occupiedBins W df) :
    df.filter (fun b => bucketOf W b.timestamp = k) ≠ [] := by
  obtain ⟨b, hb, hbk⟩ := mem_occupiedBins.mp hk
  exact List.ne_nil_of_mem (List.mem_filter.mpr ⟨hb, by simp [hbk]⟩)

lemma resampleAgg_mem {W : ℚ} {df : List Bar} {b2 : Bar} :
    b2 ∈ resampleAgg W df ↔
      ∃ k hd tl, df.filter (fun b => bucketOf W b.timestamp = k) = hd :: tl ∧
        k ∈ occupiedBins W df ∧ b2 = aggBucket W k hd tl := by
  unfold resampleAgg
  rw [List.mem_map]
  constructor
  · rintro ⟨k, hk, hEq⟩
    cases hf : df.filter (fun b => bucketOf W b.timestamp = k) with
    | nil => exact absurd hf (filter_bucket_ne_nil hk)
    | cons hd tl =>
      refine ⟨k, hd, tl, hf, hk, ?_⟩
      rw [← hEq, hf]
  · rintro ⟨k, hd, tl, hf, hk, rfl⟩
    refine ⟨k, hk, ?_⟩
    rw [hf]

lemma resampleAgg_map_timestamp (W : ℚ) (df : List Bar) :
    (resampleAgg W df).map Bar.timestamp =
      (occupiedBins W df).map (fun k : ℤ => (k : ℚ) * W) := by
  unfold resampleAgg
  rw [List.map_map]
  apply List.map_congr_left
  intro k _
  simp only [Function.comp_apply]
  cases hf : df.filter (fun b => bucketOf W b.timestamp = k) with
  | nil => rfl
  | cons hd tl => exact aggBucket_timestamp W k hd tl

lemma resampleAgg_pairwise_lt {W : ℚ} (hW : 0 < W) (df : List Bar) :
    ((resampleAgg W df).map Bar.timestamp).Pairwise (· < ·) := by
  rw [resampleAgg_map_timestamp, List.pairwise_map]
  exact (occupiedBins_sorted_lt W df).imp
    (fun h => by exact mul_lt_mul_of_pos_right (Int.cast_lt.mpr h) hW)

lemma resampleAgg_chain' {W : ℚ} (hW : 0 < W) (df : List Bar) :
    (resampleAgg W df).Chain' (fun a b => a.timestamp < b.timestamp) :=
  (List.pairwise_map.mp (resampleAgg_pairwise_lt hW df)).chain'

lemma resampleAgg_ne_nil {W : ℚ} {df : List Bar} (h : df ≠ []) :
    resampleAgg W df ≠ [] := by
  cases df with
  | nil => exact absurd rfl h
  | cons b rest =>
    have hk : bucketOf W b.timestamp ∈ occupiedBins W (b :: rest) :=
      mem_occupiedBins.mpr ⟨b, List.mem_cons_self b rest, rfl⟩
    unfold resampleAgg
    intro hmap
    rw [List.map_eq_nil_iff] at hmap
    rw [hmap] at hk
    exact (List.not_mem_nil _) hk

lemma process_timeframe_eq_resample (df : List Bar) {m : ℚ}
    (h05 : m ≠ 1/2) (h1 : m ≠ 1) :
    process_timeframe df m = resampleAgg (60 * m) df := by
  unfold process_timeframe
  rw [if_neg h05, if_neg h1]

/-! ### Preservation of the OHLC invariant (claim C3) -/

lemma create_invariant (df : List Bar) (hinv : ∀ b ∈ df, ohlcInvariant b) :
    ∀ b2 ∈ create_30second_data df, ohlcInvariant b2 := by
  rw [create_eq_flatMap]
  intro b2 hb2
  obtain ⟨b, hb, hmem⟩ := List.mem_flatMap.mp hb2
  obtain ⟨hH, hL⟩ := hinv b hb
  have hOH : b.open_ ≤ b.high := le_trans (le_max_left _ _) hH
  have hCH : b.close ≤ b.high := le_trans (le_max_right _ _) hH
  have hLO : b.low ≤ b.open_ := le_trans hL (min_le_left _ _)
  have hLC : b.low ≤ b.close := le_trans hL (min_le_right _ _)
  simp only [synthPair, List.mem_cons, List.not_mem_nil, or_false] at hmem
  rcases hmem with rfl | rfl
  · constructor
    · exact max_le_max hOH (le_refl _)
    · exact min_le_min hLO (le_refl _)
  · constructor
    · exact max_le (le_max_right _ _) (le_trans hCH (le_max_left _ _))
    · exact le_min (min_le_right _ _) (le_trans (min_le_left _ _) hLC)

lemma resampleAgg_invariant (W : ℚ) (df : List Bar)
    (hinv : ∀ b ∈ df, ohlcInvariant b) :
    ∀ b2 ∈ resampleAgg W df, ohlcInvariant b2 := by
  intro b2 hb2
  obtain ⟨k, hd, tl, hf, hk, rfl⟩ := resampleAgg_mem.mp hb2
  have hsub : ∀ x ∈ hd :: tl, x ∈ df := by
    intro x hx
    exact List.mem_of_mem_filter (hf ▸ hx)
  have hdinv := hinv hd (hsub hd (List.mem_cons_self hd tl))
  have hlast := List.getLastD_mem_cons tl hd
  have hlinv := hinv _ (hsub _ hlast)
  constructor
  · apply max_le
    · rw [aggBucket_open]
      exact le_trans (le_trans (le_max_left _ _) hdinv.1)
        (aggBucket_high_ub W k hd tl hd (List.mem_cons_self hd tl))
    · rw [aggBucket_close]
      exact le_trans (le_trans (le_max_right _ _) hlinv.1)
        (aggBucket_high_ub W k hd tl _ hlast)
  · apply le_min
    · rw [aggBucket_open]
      exact le_trans (aggBucket_low_lb W k hd tl hd (List.mem_cons_self hd tl))
        (le_trans hdinv.2 (min_le_left _ _))
    · rw [aggBucket_close]
      exact le_trans (aggBucket_low_lb W k hd tl _ hlast)
        (le_trans hlinv.2 (min_le_right _ _))

/-- C3: if every input bar satisfies `high ≥ max(open, close)` and
`low ≤ min(open, close)`, then every bar of the synthesized 30-second series
and every bar of the 5-minute and 15-minute aggregations satisfies the same
invariant. -/
theorem ohlc_invariant_preserved_c3 (df : List Bar)
    (hinv : ∀ b ∈ df, ohlcInvariant b) :
    (∀ b2 ∈ create_30second_data df, ohlcInvariant b2) ∧
    (∀ b2 ∈ process_timeframe df 5, ohlcInvariant b2) ∧
    (∀ b2 ∈ process_timeframe df 15, ohlcInvariant b2) := by
  refine ⟨create_invariant df hinv, ?_, ?_⟩
  · rw [process_timeframe_eq_resample df (by norm_num) (by norm_num)]
    exact resampleAgg_invariant _ df hinv
  · rw [process_timeframe_eq_resample df (by norm_num) (by norm_num)]
    exact resampleAgg_invariant _ df hinv

theorem ohlc_invariant_preserved_c3_witness :
    (∀ b ∈ [wBar], ohlcInvariant b) ∧
    (∀ b2 ∈ create_30second_data [wBar], ohlcInvariant b2) := by
  have hinv : ∀ b ∈ [wBar], ohlcInvariant b := by
    intro b hb
    simp only [List.mem_singleton] at hb
    subst hb
    constructor <;> norm_num [wBar]
  exact ⟨hinv, (ohlc_invariant_preserved_c3 [wBar] hinv).1⟩

/-! ### Strictly increasing output timestamps (claim C9) -/

lemma create_chain' (df : List Bar)
    (hsp : df.Chain' (fun a b => a.timestamp + 60 ≤ b.timestamp)) :
    (create_30second_data df).Chain' (fun a b => a.timestamp < b.timestamp) := by
  rw [create_eq_flatMap]
  induction df with
  | nil => simp
  | cons x rest ih =>
    rw [List.flatMap_cons, List.chain'_append]
    refine ⟨?_, ih hsp.tail, ?_⟩
    · simp only [synthPair, List.chain'_cons, List.chain'_singleton, and_true]
      linarith
    · intro a ha b hb
      cases rest with
      | nil => simp at hb
      | cons r rr =>
        have hxr : x.timestamp + 60 ≤ r.timestamp :=
          (List.chain'_cons.mp hsp).1
        simp only [synthPair, List.getLast?_cons_cons, List.getLast?_singleton,
          Option.mem_def, Option.some.injEq] at ha
        rw [List.flatMap_cons] at hb
        rw [List.head?_append] at hb
        simp only [synthPair, List.head?_cons, Option.or_some,
          Option.mem_def, Option.some.injEq] at hb
        subst ha
        subst hb
        simp only []
        linarith

/-- C9: for a base series whose timestamps increase by at least the nominal
1-minute spacing, all three outputs — the synthesized 30-second series and
the 5-minute and 15-minute aggregations — have strictly increasing
timestamps. -/
theorem strictly_increasing_c9 (df : List Bar)
    (hsp : df.Chain' (fun a b => a.timestamp + 60 ≤ b.timestamp)) :
    (create_30second_data df).Chain' (fun a b => a.timestamp < b.timestamp) ∧
    (process_timeframe df 5).Chain' (fun a b => a.timestamp < b.timestamp) ∧
    (process_timeframe df 15).Chain' (fun a b => a.timestamp < b.timestamp) := by
  refine ⟨create_chain' df hsp, ?_, ?_⟩
  · rw [process_timeframe_eq_resample df (by norm_num) (by norm_num)]
    exact resampleAgg_chain' (by norm_num) df
  · rw [process_timeframe_eq_resample df (by norm_num) (by norm_num)]
    exact resampleAgg_chain' (by norm_num) df

/-- A second concrete bar, one nominal minute after `wBar`. -/
def wBar2 : Bar :=
  { timestamp := 23460, open_ := 100, high := 100, low := 100, close := 100,
    volume := 3 }

theorem strictly_increasing_c9_witness :
    ([wBar, wBar2].Chain' (fun a b => a.timestamp + 60 ≤ b.timestamp)) ∧
    (create_30second_data [wBar, wBar2]).Chain'
      (fun a b => a.timestamp < b.timestamp) := by
  have hsp : [wBar, wBar2].Chain' (fun a b => a.timestamp + 60 ≤ b.timestamp) := by
    simp only [List.chain'_cons, List.chain'_singleton, and_true]
    norm_num [wBar, wBar2]
  exact ⟨hsp, (strictly_increasing_c9 [wBar, wBar2] hsp).1⟩

/-! ### Interval validation (claim C5) -/

/-- Counterexample to C5: 2.5 minutes is positive but not a multiple of the
1-minute base interval, yet `process_timeframe` does not reject it — it
bucketes the two bars into one 150-second bin and returns the aggregated bar
(volume `2 + 3 = 5`), an ordinary result delivered to the caller with no
configuration error. -/
theorem no_interval_validation_c5_counterexample :
    process_timeframe [wBar, wBar2] (5/2) =
      [{ timestamp := 23400, open_ := 100, high := 100, low := 100,
         close := 100, volume := 5 }] := by
  rw [process_timeframe_eq_resample [wBar, wBar2] (by norm_num) (by norm_num)]
  have hW : (60 : ℚ) * (5/2) = 150 := by norm_num
  rw [hW]
  have hb1 : bucketOf 150 wBar.timestamp = 156 := by
    norm_num [bucketOf, wBar]
  have hb2 : bucketOf 150 wBar2.timestamp = 156 := by
    norm_num [bucketOf, wBar2]
  have hbins : occupiedBins 150 [wBar, wBar2] = [156] := by
    unfold occupiedBins
    rw [List.map_cons, List.map_cons, List.map_nil, hb1, hb2]
    rfl
  unfold resampleAgg
  rw [hbins, List.map_cons, List.map_nil]
  have hfil : List.filter (fun b => bucketOf 150 b.timestamp = (156 : ℤ))
      [wBar, wBar2] = [wBar, wBar2] := by
    rw [List.filter_cons, List.filter_cons]
    simp [hb1, hb2]
  rw [hfil]
  unfold aggBucket
  simp only [List.foldl_cons, List.foldl_nil, wBar, wBar2]
  norm_num

/-- C5 as amended: `process_timeframe` performs no validation of the target
interval at all.  Every positive interval other than the dispatched 0.5 and 1
minutes — including non-multiples of the 1-minute base — is passed straight
to the bucketing aggregation, which returns an ordinary aggregated result
(non-empty whenever the input is non-empty) instead of a configuration error. -/
theorem no_interval_validation_c5_amended (df : List Bar) (m : ℚ)
    (_h0 : 0 < m) (h05 : m ≠ 1/2) (h1 : m ≠ 1) :
    process_timeframe df m = resampleAgg (60 * m) df ∧
    (df ≠ [] → process_timeframe df m ≠ []) := by
  refine ⟨process_timeframe_eq_resample df h05 h1, ?_⟩
  intro hdf
  rw [process_timeframe_eq_resample df h05 h1]
  exact resampleAgg_ne_nil hdf

theorem no_interval_validation_c5_amended_witness :
    process_timeframe [wBar, wBar2] (5/2) ≠ [] :=
  (no_interval_validation_c5_amended [wBar, wBar2] (5/2) (by norm_num)
    (by norm_num) (by norm_num)).2 (by simp)

/-! ### Window-aligned bucketing (claim C2) -/

/-- Start of the regular trading window, 06:30 exchange-local, in seconds
since midnight. -/
def windowStart : ℚ := 23400

/-- The bucket of a timestamp in the partition whose boundaries lie at
`windowStart + k·W` for integer `k`. -/
def windowBucket (W : ℚ) (t : ℚ) : ℤ := ⌊(t - windowStart) / W⌋

lemma windowBucket_eq_bucketOf_sub {W : ℚ} (hW : W ≠ 0) {c : ℤ}
    (hc : windowStart = (c : ℚ) * W) (t : ℚ) :
    windowBucket W t = bucketOf W t - c := by
  unfold windowBucket bucketOf
  rw [hc]
  have h : (t - (c : ℚ) * W) / W = t / W - (c : ℚ) := by
    field_simp
    ring
  rw [h, Int.floor_sub_int]

lemma bucketOf_int_mul {W : ℚ} (hW : W ≠ 0) (k : ℤ) :
    bucketOf W ((k : ℚ) * W) = k := by
  unfold bucketOf
  rw [mul_div_cancel_right₀ _ hW, Int.floor_intCast]

lemma resampleAgg_window_spec (df : List Bar) (W : ℚ) (hW : 0 < W) (c : ℤ)
    (hc : windowStart = (c : ℚ) * W) :
    (∀ b2 ∈ resampleAgg W df,
      ∃ hd tl,
        df.filter (fun x => windowBucket W x.timestamp =
          windowBucket W b2.timestamp) = hd :: tl ∧
        b2.open_ = hd.open_ ∧
        b2.close = (tl.getLastD hd).close ∧
        (∀ x ∈ hd :: tl, x.high ≤ b2.high) ∧
        b2.high ∈ (hd :: tl).map Bar.high ∧
        (∀ x ∈ hd :: tl, b2.low ≤ x.low) ∧
        b2.low ∈ (hd :: tl).map Bar.low ∧
        b2.volume = ((hd :: tl).map Bar.volume).sum) ∧
    (∀ j : ℤ,
      df.filter (fun x => windowBucket W x.timestamp = j) ≠ [] →
      ∃ b2 ∈ resampleAgg W df, windowBucket W b2.timestamp = j) ∧
    ((resampleAgg W df).map
      (fun b2 => windowBucket W b2.timestamp)).Pairwise (· < ·) := by
  have hW0 : W ≠ 0 := ne_of_gt hW
  refine ⟨?_, ?_, ?_⟩
  · intro b2 hb2
    obtain ⟨k, hd, tl, hf, hk, rfl⟩ := resampleAgg_mem.mp hb2
    have hts : windowBucket W (aggBucket W k hd tl).timestamp = k - c := by
      rw [aggBucket_timestamp, windowBucket_eq_bucketOf_sub hW0 hc,
        bucketOf_int_mul hW0]
    have hfeq : df.filter (fun x => windowBucket W x.timestamp =
        windowBucket W (aggBucket W k hd tl).timestamp) =
        df.filter (fun x => bucketOf W x.timestamp = k) := by
      apply List.filter_congr
      intro x _
      rw [hts]
      apply decide_eq_decide.mpr
      rw [windowBucket_eq_bucketOf_sub hW0 hc]
      omega
    refine ⟨hd, tl, hfeq.trans hf, ?_, ?_, ?_, ?_, ?_, ?_, ?_⟩
    · exact aggBucket_open W k hd tl
    · exact aggBucket_close W k hd tl
    · exact aggBucket_high_ub W k hd tl
    · exact aggBucket_high_mem W k hd tl
    · exact aggBucket_low_lb W k hd tl
    · exact aggBucket_low_mem W k hd tl
    · exact aggBucket_volume W k hd tl
  · intro j hj
    obtain ⟨y, ys, hy⟩ := List.exists_cons_of_ne_nil hj
    have hymem : y ∈ df.filter (fun x => windowBucket W x.timestamp = j) := by
      rw [hy]; exact List.mem_cons_self y ys
    obtain ⟨hydf, hyj⟩ := List.mem_filter.mp hymem
    have hyj : windowBucket W y.timestamp = j := by simpa using hyj
    have hk : bucketOf W y.timestamp ∈ occupiedBins W df :=
      mem_occupiedBins.mpr ⟨y, hydf, rfl⟩
    cases hf2 : df.filter
        (fun b => bucketOf W b.timestamp = bucketOf W y.timestamp) with
    | nil => exact absurd hf2 (filter_bucket_ne_nil hk)
    | cons hd2 tl2 =>
      refine ⟨aggBucket W (bucketOf W y.timestamp) hd2 tl2,
        resampleAgg_mem.mpr ⟨bucketOf W y.timestamp, hd2, tl2, hf2, hk, rfl⟩, ?_⟩
      rw [aggBucket_timestamp, windowBucket_eq_bucketOf_sub hW0 hc,
        bucketOf_int_mul hW0]
      rw [windowBucket_eq_bucketOf_sub hW0 hc] at hyj
      omega
  · have hmm : (resampleAgg W df).map (fun b2 => windowBucket W b2.timestamp) =
        ((resampleAgg W df).map Bar.timestamp).map (windowBucket W) := by
      rw [List.map_map]; rfl
    rw [hmm, resampleAgg_map_timestamp, List.map_map, List.pairwise_map]
    apply (occupiedBins_sorted_lt W df).imp
    intro k1 k2 hlt
    simp only [Function.comp_apply]
    rw [windowBucket_eq_bucketOf_sub hW0 hc, windowBucket_eq_bucketOf_sub hW0 hc,
      bucketOf_int_mul hW0, bucketOf_int_mul hW0]
    omega

/-- C2: for a non-empty 1-minute base series and a target of 5 or 15 minutes,
`process_timeframe` partitions the bars into contiguous buckets whose
boundaries lie at `windowStart + k·target` for integer `k`, and emits exactly
one bar per non-empty bucket — open = first bar's open in arrival order,
high = maximum high, low = minimum low, close = last bar's close in arrival
order, volume = sum of volumes — in ascending bucket order, with empty
buckets producing nothing (outputs are indexed by their own bucket, which
hits every non-empty bucket and no other, each at most once). -/
theorem aggregation_buckets_c2 (df : List Bar) (m : ℚ)
    (hm : m = 5 ∨ m = 15) (_hdf : df ≠ []) :
    (∀ b2 ∈ process_timeframe df m,
      ∃ hd tl,
        df.filter (fun x => windowBucket (60 * m) x.timestamp =
          windowBucket (60 * m) b2.timestamp) = hd :: tl ∧
        b2.open_ = hd.open_ ∧
        b2.close = (tl.getLastD hd).close ∧
        (∀ x ∈ hd :: tl, x.high ≤ b2.high) ∧
        b2.high ∈ (hd :: tl).map Bar.high ∧
        (∀ x ∈ hd :: tl, b2.low ≤ x.low) ∧
        b2.low ∈ (hd :: tl).map Bar.low ∧
        b2.volume = ((hd :: tl).map Bar.volume).sum) ∧
    (∀ j : ℤ,
      df.filter (fun x => windowBucket (60 * m) x.timestamp = j) ≠ [] →
      ∃ b2 ∈ process_timeframe df m, windowBucket (60 * m) b2.timestamp = j) ∧
    ((process_timeframe df m).map
      (fun b2 => windowBucket (60 * m) b2.timestamp)).Pairwise (· < ·) := by
  rcases hm with rfl | rfl
  · rw [process_timeframe_eq_resample df (by norm_num) (by norm_num)]
    exact resampleAgg_window_spec df (60 * 5) (by norm_num) 78
      (by norm_num [windowStart])
  · rw [process_timeframe_eq_resample df (by norm_num) (by norm_num)]
    exact resampleAgg_window_spec df (60 * 15) (by norm_num) 26
      (by norm_num [windowStart])

theorem aggregation_buckets_c2_witness :
    ((5 : ℚ) = 5 ∨ (5 : ℚ) = 15) ∧ ([wBar] : List Bar) ≠ [] ∧
    ((process_timeframe [wBar] 5).map
      (fun b2 => windowBucket (60 * 5) b2.timestamp)).Pairwise (· < ·) :=
  ⟨Or.inl rfl, by simp,
    (aggregation_buckets_c2 [wBar] 5 (Or.inl rfl) (by simp)).2.2⟩

/-! ### The win-rate evaluator (claims C6 and C10) -/

lemma processDay_fetch_failed (d : ℤ) : processDay d none = none := rfl

lemma processDay_short (d : ℤ) (df : List Bar)
    (h : (create_30second_data df).length < 2) :
    processDay d (some df) = none := by
  simp only [processDay]
  by_cases hdf : df = []
  · rw [if_pos hdf]
  · rw [if_neg hdf]
    cases hc : create_30second_data df with
    | nil => rfl
    | cons fc rest =>
      cases rest with
      | nil => rfl
      | cons snd rest2 =>
        rw [hc] at h
        simp at h
        omega

lemma processDay_some_fields {d : ℤ} {f : Option (List Bar)} {r : DayRecord}
    (h : processDay d f = some r) :
    r.date = d ∧ r.trades = r.wins + r.losses := by
  cases f with
  | none => exact absurd h (by simp [processDay])
  | some df =>
    simp only [processDay] at h
    by_cases hdf : df = []
    · rw [if_pos hdf] at h
      exact absurd h (by simp)
    · rw [if_neg hdf] at h
      cases hc : create_30second_data df with
      | nil => rw [hc] at h; exact absurd h (by simp)
      | cons fc rest =>
        cases rest with
        | nil => rw [hc] at h; exact absurd h (by simp)
        | cons snd rest2 =>
          rw [hc] at h
          simp only [Option.some.injEq] at h
          subst h
          exact ⟨rfl, rfl⟩

lemma calculate_fields {today : ℤ} {fetch : ℤ → Option (List Bar)} {days : ℕ}
    {s : Summary}
    (h : calculate_first_candle_winrate today fetch days = some s) :
    s.daily_breakdown = (List.range days).filterMap
      (fun i : ℕ => processDay (today - (i : ℤ)) (fetch (today - (i : ℤ)))) ∧
    s.overall_winrate = pyRound 1
      ((s.daily_breakdown.map DayRecord.winrate).sum /
        (s.daily_breakdown.length : ℚ)) ∧
    s.winning_days = (s.daily_breakdown.filter (fun d => 50 < d.winrate)).length ∧
    s.total_days = s.daily_breakdown.length ∧
    s.total_wins = (s.daily_breakdown.map DayRecord.wins).sum ∧
    s.total_losses = (s.daily_breakdown.map DayRecord.losses).sum := by
  simp only [calculate_first_candle_winrate] at h
  cases hR : (List.range days).filterMap
      (fun i : ℕ => processDay (today - (i : ℤ)) (fetch (today - (i : ℤ)))) with
  | nil => rw [hR] at h; exact absurd h (by simp)
  | cons r rs =>
    rw [hR] at h
    simp only [Option.some.injEq] at h
    subst h
    exact ⟨rfl, rfl, rfl, rfl, rfl, rfl⟩

/-- C6: in every non-error result of the win-rate evaluator,
`overall_winrate` is the (display-rounded) unweighted arithmetic mean of the
per-day `winrate` fields — the formula is `Σ winrate / total_days`, not the
pooled `total_wins / (total_wins + total_losses)` ratio; `winning_days`
counts exactly the evaluated days whose win rate exceeds 50; and a day whose
fetch failed or that produced fewer than two synthesized 30-second bars is
skipped (`processDay` yields `none`), hence excluded from `daily_breakdown`
and from the `total_days` denominator. -/
theorem winrate_summary_c6 (today : ℤ) (fetch : ℤ → Option (List Bar))
    (days : ℕ) (s : Summary)
    (h : calculate_first_candle_winrate today fetch days = some s) :
    s.overall_winrate = pyRound 1
      ((s.daily_breakdown.map DayRecord.winrate).sum /
        (s.daily_breakdown.length : ℚ)) ∧
    s.winning_days = (s.daily_breakdown.filter (fun d => 50 < d.winrate)).length ∧
    s.total_days = s.daily_breakdown.length ∧
    (∀ i : ℕ, fetch (today - (i : ℤ)) = none →
      processDay (today - (i : ℤ)) (fetch (today - (i : ℤ))) = none) ∧
    (∀ i : ℕ, ∀ df, fetch (today - (i : ℤ)) = some df →
      (create_30second_data df).length < 2 →
      processDay (today - (i : ℤ)) (fetch (today - (i : ℤ))) = none) ∧
    s.daily_breakdown = (List.range days).filterMap
      (fun i : ℕ => processDay (today - (i : ℤ)) (fetch (today - (i : ℤ)))) := by
  obtain ⟨h1, h2, h3, h4, _, _⟩ := calculate_fields h
  refine ⟨h2, h3, h4, ?_, ?_, h1⟩
  · intro i hi
    rw [hi]
    exact processDay_fetch_failed _
  · intro i df hi hlen
    rw [hi]
    exact processDay_short _ df hlen

/-- C10: every non-error result of the win-rate evaluator is internally
consistent — each daily record's `trades` equals `wins + losses`;
`total_wins` and `total_losses` are the sums of the per-day `wins` and
`losses` over `daily_breakdown`; `total_days` is the length of
`daily_breakdown`; and the records appear in strictly decreasing date order
(most recent day first). -/
theorem summary_consistency_c10 (today : ℤ) (fetch : ℤ → Option (List Bar))
    (days : ℕ) (s : Summary)
    (h : calculate_first_candle_winrate today fetch days = some s) :
    (∀ rec ∈ s.daily_breakdown, rec.trades = rec.wins + rec.losses) ∧
    s.total_wins = (s.daily_breakdown.map DayRecord.wins).sum ∧
    s.total_losses = (s.daily_breakdown.map DayRecord.losses).sum ∧
    s.total_days = s.daily_breakdown.length ∧
    s.daily_breakdown.Pairwise (fun a b => b.date < a.date) := by
  obtain ⟨h1, _, _, h4, h5, h6⟩ := calculate_fields h
  refine ⟨?_, h5, h6, h4, ?_⟩
  · intro rec hrec
    rw [h1] at hrec
    obtain ⟨i, _, hsome⟩ := List.mem_filterMap.mp hrec
    exact (processDay_some_fields hsome).2
  · rw [h1]
    apply List.pairwise_filterMap.mpr
    apply (List.pairwise_lt_range days).imp
    intro i j hij x hx y hy
    rw [Option.mem_def] at hx hy
    rw [(processDay_some_fields hx).1, (processDay_some_fields hy).1]
    omega

/-- A concrete data source for instantiating the evaluator theorems: the most
recent day returns one bar, the day before fails. -/
def wFetch : ℤ → Option (List Bar) := fun d => if d = 0 then some [wBar] else none

/-- The day record the evaluator produces for day 0 of `wFetch`. -/
def wRec : DayRecord :=
  { date := 0, fcOpen := 100, fcHigh := 100, fcLow := 100, fcClose := 100,
    fcRange := 0, direction := Direction.up, trades := 0, wins := 0,
    losses := 0, winrate := 0 }

/-- The summary the evaluator produces on `wFetch` over two days. -/
def wSummary : Summary :=
  { overall_winrate := 0, winning_days := 0, total_days := 1, total_wins := 0,
    total_losses := 0, daily_breakdown := [wRec] }

lemma create_wBar_eval : create_30second_data [wBar] =
    [{ timestamp := 23400, open_ := 100, high := 100, low := 100, close := 100,
       volume := 1 },
     { timestamp := 23430, open_ := 100, high := 100, low := 100, close := 100,
       volume := 1 }] := by
  rw [create_eq_flatMap]
  simp only [List.flatMap_cons, List.flatMap_nil, List.append_nil, synthPair, wBar]
  norm_num

lemma processDay_wBar : processDay 0 (some [wBar]) = some wRec := by
  simp only [processDay]
  rw [if_neg (by simp), create_wBar_eval]
  simp only [List.foldl_cons, List.foldl_nil, tallyStep]
  norm_num [wRec, pyRound, roundHalfEven]

lemma wCalc : calculate_first_candle_winrate 0 wFetch 2 = some wSummary := by
  simp only [calculate_first_candle_winrate]
  rw [show List.range 2 = [0, 1] from rfl]
  rw [List.filterMap_cons, List.filterMap_cons, List.filterMap_nil]
  have h0 : wFetch ((0 : ℤ) - ((0 : ℕ) : ℤ)) = some [wBar] := by
    norm_num [wFetch]
  have h1 : wFetch ((0 : ℤ) - ((1 : ℕ) : ℤ)) = none := by
    norm_num [wFetch]
  rw [h0, h1]
  norm_num [processDay_wBar, processDay_fetch_failed, wSummary, wRec, pyRound,
    roundHalfEven]

theorem winrate_summary_c6_witness :
    wSummary.overall_winrate = pyRound 1
      ((wSummary.daily_breakdown.map DayRecord.winrate).sum /
        (wSummary.daily_breakdown.length : ℚ)) ∧
    wSummary.total_days = wSummary.daily_breakdown.length :=
  ⟨(winrate_summary_c6 0 wFetch 2 wSummary wCalc).1,
   (winrate_summary_c6 0 wFetch 2 wSummary wCalc).2.2.1⟩

theorem summary_consistency_c10_witness :
    (∀ rec ∈ wSummary.daily_breakdown, rec.trades = rec.wins + rec.losses) ∧
    wSummary.daily_breakdown.Pairwise (fun a b => b.date < a.date) :=
  ⟨(summary_consistency_c10 0 wFetch 2 wSummary wCalc).1,
   (summary_consistency_c10 0 wFetch 2 wSummary wCalc).2.2.2.2⟩
